import Mathlib

/-!
Verification of the chess rules engine in `src/chess.rs`.

The embedding mirrors the Rust source declaration by declaration:

* `PieceType`, `Color`, `Piece`, `Board`, `Game` follow the Rust data
  model.  The Rust board is `[[Option<Piece>; 8]; 8]`, indexed
  `tiles[y][x]`; we embed it as a function `Fin 8 → Fin 8 → Option Piece`
  (first argument the row `y`, second the file `x`), which makes the
  fixed 8×8 shape part of the type, exactly as in Rust.
* Methods taking `&self` become pure functions; methods taking
  `&mut self` become functions returning the result paired with the new
  `Game`.  The Rust `HashSet<(usize, usize)>` becomes a duplicate-free
  `List Sq` built with `hsInsert` (insertion is a no-op on a present
  element, exactly the `HashSet::insert` semantics; all the code ever
  does with these sets is insert, extend, membership and emptiness
  tests, all order-independent).
* `Game::make_move` calls `.expect(..)` on the moved-from square, the
  one panic reachable with in-range coordinates; we model it with
  `Option`, `none` standing for the panic, and the `Option` propagates
  to every caller (`is_legal_move`, `get_legal_moves`,
  `can_make_any_move`, `is_checkmate`, `is_stalemate`,
  `try_make_move`).
* `Game::cast_ray` is a `loop`; we embed it as a fuel-indexed recursion.
  With a step limit `some s` the loop body runs at most `s + 1` times
  (the counter `i` grows on every non-terminal iteration), and with no
  limit and a nonzero direction at most `16` times (the moving
  coordinate leaves `[0, 8)`), so fuel `rayFuel steps` is never
  exhausted on those inputs and the embedding computes exactly what the
  Rust loop does.  (The one input class where the Rust loop diverges —
  no step limit, direction `(0,0)`, empty origin — is excluded by
  hypothesis in the theorem about `cast_ray`; no call site of the
  program uses an unlimited ray with the zero direction.)
-/

inductive PieceType : Type where
  | Pawn
  | Bishop
  | Knight
  | Rook
  | Queen
  | King
deriving DecidableEq, Repr

inductive Color : Type where
  | White
  | Black
deriving DecidableEq, Repr

structure Piece where
  piece_type : PieceType
  piece_color : Color
deriving Repr

/- The `DecidableEq` instances below are written by hand, with the
equality proof tucked inside `isTrue`/`isFalse` rather than used to cast
the result value: derived instances cast with `▸`, which blocks
evaluation of `decide`-based proofs on concrete games. -/

instance : DecidableEq Piece := fun a b =>
  if h1 : a.piece_type = b.piece_type then
    if h2 : a.piece_color = b.piece_color then
      .isTrue (by cases a; cases b; simp_all)
    else .isFalse (fun e => h2 (congrArg Piece.piece_color e))
  else .isFalse (fun e => h1 (congrArg Piece.piece_type e))

instance (priority := 2000) cleanDecEqOption {α : Type} [DecidableEq α] :
    DecidableEq (Option α) := fun a b =>
  match a, b with
  | none, none => .isTrue rfl
  | none, some _ => .isFalse (fun e => Option.noConfusion e)
  | some _, none => .isFalse (fun e => Option.noConfusion e)
  | some x, some y =>
    if h : x = y then .isTrue (congrArg some h)
    else .isFalse (fun e => h (by injection e))

instance (priority := 2000) cleanDecEqProd {α β : Type} [DecidableEq α]
    [DecidableEq β] : DecidableEq (α × β) := fun a b =>
  if h1 : a.1 = b.1 then
    if h2 : a.2 = b.2 then .isTrue (by cases a; cases b; simp_all)
    else .isFalse (fun e => h2 (congrArg Prod.snd e))
  else .isFalse (fun e => h1 (congrArg Prod.fst e))

def Piece.new (piece_type : PieceType) (piece_color : Color) : Piece :=
  ⟨piece_type, piece_color⟩

/-- A square `(x, y)`: file `x`, rank `y`, both in `[0, 8)` — the
`(usize, usize)` pairs of the Rust code, with the in-range invariant in
the type. -/
abbrev Sq : Type := Fin 8 × Fin 8

/-- `Board { tiles: [[Option<Piece>; 8]; 8] }`, accessed `tiles y x` for
Rust's `tiles[y][x]`. -/
structure Board where
  tiles : Fin 8 → Fin 8 → Option Piece

instance : DecidableEq Board := fun a b =>
  haveI hx : ∀ y, Decidable (∀ x ∈ List.finRange 8, a.tiles y x = b.tiles y x) :=
    fun y => List.decidableBAll (fun x => a.tiles y x = b.tiles y x) (List.finRange 8)
  haveI hy : Decidable
      (∀ y ∈ List.finRange 8, ∀ x ∈ List.finRange 8, a.tiles y x = b.tiles y x) :=
    List.decidableBAll (fun y => ∀ x ∈ List.finRange 8, a.tiles y x = b.tiles y x)
      (List.finRange 8)
  decidable_of_iff
    (∀ y ∈ List.finRange 8, ∀ x ∈ List.finRange 8, a.tiles y x = b.tiles y x)
    (by
      constructor
      · intro h
        cases a
        cases b
        simp only [Board.mk.injEq]
        funext y x
        exact h y (List.mem_finRange y) x (List.mem_finRange x)
      · rintro rfl y hy x hx
        rfl)

def Board.new (setup : Fin 8 → Fin 8 → Option Piece) : Board :=
  ⟨setup⟩

structure Game where
  board : Board
  player_to_move : Color

instance : DecidableEq Game := fun a b =>
  if hb : a.board = b.board then
    if hp : a.player_to_move = b.player_to_move then
      .isTrue (by cases a; cases b; simp_all)
    else .isFalse (fun e => hp (congrArg Game.player_to_move e))
  else .isFalse (fun e => hb (congrArg Game.board e))

def PAWN_WHITE : Piece := Piece.new .Pawn .White
def PAWN_BLACK : Piece := Piece.new .Pawn .Black
def ROOK_WHITE : Piece := Piece.new .Rook .White
def ROOK_BLACK : Piece := Piece.new .Rook .Black
def KNIGHT_WHITE : Piece := Piece.new .Knight .White
def KNIGHT_BLACK : Piece := Piece.new .Knight .Black
def BISHOP_WHITE : Piece := Piece.new .Bishop .White
def BISHOP_BLACK : Piece := Piece.new .Bishop .Black
def QUEEN_WHITE : Piece := Piece.new .Queen .White
def QUEEN_BLACK : Piece := Piece.new .Queen .Black
def KING_WHITE : Piece := Piece.new .King .White
def KING_BLACK : Piece := Piece.new .King .Black

/-- Rust's back rank `[Rook, Knight, Bishop, Queen, King, Bishop, Knight, Rook]`. -/
def backRank (c : Color) (x : Fin 8) : Option Piece :=
  match x.val with
  | 0 => some (Piece.new .Rook c)
  | 1 => some (Piece.new .Knight c)
  | 2 => some (Piece.new .Bishop c)
  | 3 => some (Piece.new .Queen c)
  | 4 => some (Piece.new .King c)
  | 5 => some (Piece.new .Bishop c)
  | 6 => some (Piece.new .Knight c)
  | _ => some (Piece.new .Rook c)

/-- `BOARD_DEFAULT_SETUP`: White's back rank on row 0, White pawns on
row 1, rows 2–5 empty, Black pawns on row 6, Black's back rank on row 7. -/
def BOARD_DEFAULT_SETUP : Fin 8 → Fin 8 → Option Piece := fun y x =>
  match y.val with
  | 0 => backRank .White x
  | 1 => some PAWN_WHITE
  | 6 => some PAWN_BLACK
  | 7 => backRank .Black x
  | _ => none

structure RaycastInfo where
  is_hit : Bool
  point : Option Sq
  path : List Sq

instance : DecidableEq RaycastInfo := fun a b =>
  if h1 : a.is_hit = b.is_hit then
    if h2 : a.point = b.point then
      if h3 : a.path = b.path then .isTrue (by cases a; cases b; simp_all)
      else .isFalse (fun e => h3 (congrArg RaycastInfo.path e))
    else .isFalse (fun e => h2 (congrArg RaycastInfo.point e))
  else .isFalse (fun e => h1 (congrArg RaycastInfo.is_hit e))

structure MoveInfo where
  moved : Piece
  captured : Option Piece
  from_x : Fin 8
  from_y : Fin 8
  to_x : Fin 8
  to_y : Fin 8

instance : DecidableEq MoveInfo := fun a b =>
  if h1 : a.moved = b.moved then
    if h2 : a.captured = b.captured then
      if h3 : (a.from_x, a.from_y, a.to_x, a.to_y) = (b.from_x, b.from_y, b.to_x, b.to_y) then
        .isTrue (by cases a; cases b; simp_all)
      else .isFalse (fun e => h3 (by cases e; rfl))
    else .isFalse (fun e => h2 (congrArg MoveInfo.captured e))
  else .isFalse (fun e => h1 (congrArg MoveInfo.moved e))

/-- `HashSet::insert`: adds the square unless already present. -/
def hsInsert (s : List Sq) (p : Sq) : List Sq :=
  if p ∈ s then s else p :: s

/-- `HashSet::extend`: inserts every element of `t`. -/
def hsExtend (s t : List Sq) : List Sq :=
  t.foldl hsInsert s

def Game.get_piece (g : Game) (x y : Fin 8) : Option Piece :=
  g.board.tiles y x

def Game.is_empty (g : Game) (x y : Fin 8) : Bool :=
  (g.get_piece x y).isNone

/-- `x >= 0 && x < 8 && y >= 0 && y < 8` (on Rust `isize`). -/
abbrev is_bounded (x y : Int) : Prop :=
  0 ≤ x ∧ x < 8 ∧ 0 ≤ y ∧ y < 8

/-- The code after the `loop` in `Game::cast_ray`: no hit; no landing
point when zero steps were taken, else the last square reached. -/
def castRayFinish (pos : Sq) (i : Nat) (path : List Sq) : RaycastInfo :=
  if i = 0 then { is_hit := false, point := none, path := path }
  else { is_hit := false, point := some pos, path := path }

/-- `steps.is_some_and(|r| i >= r)`. -/
def stepsDone (steps : Option Nat) (i : Nat) : Bool :=
  match steps with
  | some r => decide (i ≥ r)
  | none => false

/-- The in-range square `(rx, ry)`, usable once `is_bounded` passed —
the `rx as usize` / `ry as usize` casts of the Rust code. -/
def boundedSq (rx ry : Int) (h : is_bounded rx ry) : Sq :=
  (⟨rx.toNat, by obtain ⟨h1, h2, h3, h4⟩ := h; omega⟩,
   ⟨ry.toNat, by obtain ⟨h1, h2, h3, h4⟩ := h; omega⟩)

/-- The body of the `loop` in `Game::cast_ray`, one constructor
application per iteration: state `(pos, i, path)` where `pos` is the
running `(rx, ry)` (always in range: it starts at the origin and is only
ever advanced to a square that passed `is_bounded`, mirroring the
`rx -= dx; ry -= dy` rollback by simply not advancing), `i` the step
counter, `path` the crossed empty squares. -/
def castRayLoop (g : Game) (dx dy : Int) (steps : Option Nat) :
    Nat → Sq → Nat → List Sq → RaycastInfo
  | 0, pos, i, path => castRayFinish pos i path
  | fuel + 1, pos, i, path =>
    if stepsDone steps i then castRayFinish pos i path
    else
      if h : is_bounded ((pos.1 : Int) + dx) ((pos.2 : Int) + dy) then
        if g.is_empty (boundedSq _ _ h).1 (boundedSq _ _ h).2 then
          castRayLoop g dx dy steps fuel (boundedSq _ _ h) (i + 1)
            (hsInsert path (boundedSq _ _ h))
        else { is_hit := true, point := some (boundedSq _ _ h), path := path }
      else castRayFinish pos i path

/-- Fuel sufficient for every terminating run of the Rust loop (see the
file comment). -/
def rayFuel : Option Nat → Nat
  | some s => s + 1
  | none => 16

def Game.cast_ray (g : Game) (x y : Fin 8) (dx dy : Int) (steps : Option Nat) :
    RaycastInfo :=
  castRayLoop g dx dy steps (rayFuel steps) (x, y) 0 []

def Game.can_be_here (g : Game) (x y : Fin 8) : Bool :=
  match g.get_piece x y with
  | some piece =>
    if piece.piece_type = PieceType.King then false
    else if piece.piece_color = g.player_to_move then false
    else true
  | none => true

/-- `if raycast.is_hit { if let Some(point) = raycast.point { set.insert(point) } }`
— the repeated capture-insertion pattern of the `get_pseudo_captures_*`
methods. -/
def insHit (s : List Sq) (r : RaycastInfo) : List Sq :=
  if r.is_hit then
    match r.point with
    | some p => hsInsert s p
    | none => s
  else s

/-- `if !raycast.is_hit { if let Some(point) = raycast.point { set.insert(point) } }`
— the repeated quiet-move-insertion pattern of the `get_pseudo_moves_*`
methods. -/
def insMiss (s : List Sq) (r : RaycastInfo) : List Sq :=
  if r.is_hit then s
  else
    match r.point with
    | some p => hsInsert s p
    | none => s

def Game.get_pseudo_captures_pawn (g : Game) (x y : Fin 8) (captures : List Sq) :
    List Sq :=
  insHit (insHit captures (g.cast_ray x y 1 1 (some 1))) (g.cast_ray x y (-1) 1 (some 1))

def Game.get_pseudo_moves_pawn (g : Game) (x y : Fin 8) (moves : List Sq) :
    List Sq :=
  let m1 := insMiss moves (g.cast_ray x y 0 1 (some 1))
  if y = (1 : Fin 8) then insMiss m1 (g.cast_ray x y 0 1 (some 2)) else m1

/-- `for dx in [-1, 1] { for dy in [-1, 1] { .. } }` in iteration order. -/
def bishopDirs : List (Int × Int) := [(-1, -1), (-1, 1), (1, -1), (1, 1)]

/-- `for d in [-1, 1] { ray (0, d); ray (d, 0) }` in iteration order. -/
def rookDirs : List (Int × Int) := [(0, -1), (-1, 0), (0, 1), (1, 0)]

def knightDirs : List (Int × Int) :=
  [(1, 2), (2, 1), (2, -1), (1, -2), (-1, -2), (-2, -1), (-2, 1), (-1, 2)]

/-- `for dx in [-1, 0, 1] { for dy in [-1, 0, 1] { .. } }` in iteration
order — nine directions, the zero direction included. -/
def kingDirs : List (Int × Int) :=
  [(-1, -1), (-1, 0), (-1, 1), (0, -1), (0, 0), (0, 1), (1, -1), (1, 0), (1, 1)]

def Game.get_pseudo_moves_bishop (g : Game) (x y : Fin 8) (moves : List Sq) :
    List Sq :=
  bishopDirs.foldl (fun acc d => hsExtend acc (g.cast_ray x y d.1 d.2 none).path) moves

def Game.get_pseudo_captures_bishop (g : Game) (x y : Fin 8) (captures : List Sq) :
    List Sq :=
  bishopDirs.foldl (fun acc d => insHit acc (g.cast_ray x y d.1 d.2 none)) captures

def Game.get_pseudo_moves_knight (g : Game) (x y : Fin 8) (moves : List Sq) :
    List Sq :=
  knightDirs.foldl (fun acc d => insMiss acc (g.cast_ray x y d.1 d.2 (some 1))) moves

def Game.get_pseudo_captures_knight (g : Game) (x y : Fin 8) (moves : List Sq) :
    List Sq :=
  knightDirs.foldl (fun acc d => insHit acc (g.cast_ray x y d.1 d.2 (some 1))) moves

def Game.get_pseudo_moves_rook (g : Game) (x y : Fin 8) (moves : List Sq) :
    List Sq :=
  rookDirs.foldl (fun acc d => hsExtend acc (g.cast_ray x y d.1 d.2 none).path) moves

def Game.get_pseudo_captures_rook (g : Game) (x y : Fin 8) (captures : List Sq) :
    List Sq :=
  rookDirs.foldl (fun acc d => insHit acc (g.cast_ray x y d.1 d.2 none)) captures

def Game.get_pseudo_moves_queen (g : Game) (x y : Fin 8) (captures : List Sq) :
    List Sq :=
  g.get_pseudo_moves_rook x y (g.get_pseudo_moves_bishop x y captures)

def Game.get_pseudo_captures_queen (g : Game) (x y : Fin 8) (captures : List Sq) :
    List Sq :=
  g.get_pseudo_captures_rook x y (g.get_pseudo_captures_bishop x y captures)

def Game.get_pseudo_moves_king (g : Game) (x y : Fin 8) (captures : List Sq) :
    List Sq :=
  kingDirs.foldl (fun acc d => insMiss acc (g.cast_ray x y d.1 d.2 (some 1))) captures

def Game.get_pseudo_captures_king (g : Game) (x y : Fin 8) (captures : List Sq) :
    List Sq :=
  kingDirs.foldl (fun acc d => insHit acc (g.cast_ray x y d.1 d.2 (some 1))) captures

def Game.get_pseudo_moves (g : Game) (x y : Fin 8) : List Sq :=
  match g.get_piece x y with
  | none => []
  | some piece =>
    match piece.piece_type with
    | .Pawn => g.get_pseudo_captures_pawn x y (g.get_pseudo_moves_pawn x y [])
    | .Bishop => g.get_pseudo_captures_bishop x y (g.get_pseudo_moves_bishop x y [])
    | .Knight => g.get_pseudo_captures_knight x y (g.get_pseudo_moves_knight x y [])
    | .Rook => g.get_pseudo_captures_rook x y (g.get_pseudo_moves_rook x y [])
    | .Queen => g.get_pseudo_captures_queen x y (g.get_pseudo_moves_queen x y [])
    | .King => g.get_pseudo_captures_king x y (g.get_pseudo_moves_king x y [])

def Game.is_pseudo_legal (g : Game) (from_x from_y to_x to_y : Fin 8) : Bool :=
  match g.get_piece from_x from_y with
  | some _ => decide ((to_x, to_y) ∈ g.get_pseudo_moves from_x from_y)
  | none => false

def Game.get_pseudo_captures (g : Game) (x y : Fin 8) : List Sq :=
  match g.get_piece x y with
  | none => []
  | some piece =>
    match piece.piece_type with
    | .Pawn => g.get_pseudo_captures_pawn x y []
    | .Bishop => g.get_pseudo_captures_bishop x y []
    | .Knight => g.get_pseudo_captures_knight x y []
    | .Rook => g.get_pseudo_captures_rook x y []
    | .Queen => g.get_pseudo_captures_queen x y []
    | .King => g.get_pseudo_captures_king x y []

/-- First king of the side to move, scanning `y` outer, `x` inner. -/
def Game.find_king (g : Game) : Option Sq :=
  (List.finRange 8).findSome? fun y =>
    (List.finRange 8).findSome? fun x =>
      match g.get_piece x y with
      | some piece =>
        if piece.piece_type = PieceType.King then
          if piece.piece_color = g.player_to_move then some (x, y) else none
        else none
      | none => none

/-- `self.board.tiles.reverse()`: row `y` of the new board is row
`7 - y` of the old one. -/
def Game.flip_board (g : Game) : Game :=
  { g with board := ⟨fun y x => g.board.tiles y.rev x⟩ }

def Game.in_check (g : Game) : Bool × Game :=
  let g1 := g.flip_board
  let result :=
    match g1.find_king with
    | some king =>
      (List.finRange 8).any fun y =>
        (List.finRange 8).any fun x =>
          match g1.get_piece x y with
          | some piece =>
            decide (piece.piece_color ≠ g1.player_to_move) &&
              decide (king ∈ g1.get_pseudo_captures x y)
          | none => false
    | none => false
  (result, g1.flip_board)

def Game.swap_turn (g : Game) : Game :=
  { g with
    player_to_move :=
      match g.player_to_move with
      | .White => .Black
      | .Black => .White }

/-- Sets `tiles[y][x] = v`. -/
def Board.setTile (b : Board) (x y : Fin 8) (v : Option Piece) : Board :=
  ⟨fun Y X => if Y = y ∧ X = x then v else b.tiles Y X⟩

/-- `Game::make_move`; `none` models the panic of
`.expect("shouldn't be moving empty")`. -/
def Game.make_move (g : Game) (from_x from_y to_x to_y : Fin 8) :
    Option (MoveInfo × Game) :=
  match g.board.tiles from_y from_x with
  | none => none
  | some moved =>
    let captured := g.board.tiles to_y to_x
    let info : MoveInfo := ⟨moved, captured, from_x, from_y, to_x, to_y⟩
    let b1 := g.board.setTile to_x to_y (g.board.tiles from_y from_x)
    let b2 := b1.setTile from_x from_y none
    some (info, { g with board := b2 })

def Game.unmake_move (g : Game) (move_info : MoveInfo) : Game :=
  { g with
    board :=
      (g.board.setTile move_info.to_x move_info.to_y move_info.captured).setTile
        move_info.from_x move_info.from_y (some move_info.moved) }

def Game.is_legal_move (g : Game) (from_x from_y to_x to_y : Fin 8) :
    Option (Bool × Game) :=
  match g.get_piece from_x from_y with
  | none => some (false, g)
  | some piece =>
    if piece.piece_color = g.player_to_move then
      if g.is_pseudo_legal from_x from_y to_x to_y then
        if (g.get_piece to_x to_y).isSome && !(g.can_be_here to_x to_y) then
          some (false, g)
        else
          match g.make_move from_x from_y to_x to_y with
          | none => none
          | some (move_info, g1) =>
            let r := g1.in_check
            let g3 := r.2.unmake_move move_info
            if r.1 then some (false, g3) else some (true, g3)
      else some (false, g)
    else some (false, g)

def Game.new (board : Board) : Game :=
  { board := board, player_to_move := .White }

/-- The `filter` in `Game::get_legal_moves`: the closure captures
`&mut self`, so the game state is threaded through the successive
`is_legal_move` calls. -/
def Game.legal_filter (x y : Fin 8) : List Sq → Game → Option (List Sq × Game)
  | [], g => some ([], g)
  | m :: rest, g =>
    match g.is_legal_move x y m.1 m.2 with
    | none => none
    | some (b, g1) =>
      match Game.legal_filter x y rest g1 with
      | none => none
      | some (l, g2) => some (if b then m :: l else l, g2)

def Game.get_legal_moves (g : Game) (x y : Fin 8) : Option (List Sq × Game) :=
  Game.legal_filter x y (g.get_pseudo_moves x y) g

/-- The 64 squares in the scan order of `can_make_any_move`
(`for y in 0..8 { for x in 0..8 { .. } }`). -/
def allSquaresYX : List Sq :=
  (List.finRange 8).flatMap fun y => (List.finRange 8).map fun x => (x, y)

def Game.can_make_any_move_go : List Sq → Game → Option (Bool × Game)
  | [], g => some (true, g)
  -- the fallthrough after all 64 squares is `return true;` (chess.rs line 468)
  | (x, y) :: rest, g =>
    match g.get_piece x y with
    | some _ =>
      match g.get_legal_moves x y with
      | none => none
      | some (moves, g1) =>
        if !moves.isEmpty then some (true, g1)
        else Game.can_make_any_move_go rest g1
    | none => Game.can_make_any_move_go rest g

def Game.can_make_any_move (g : Game) : Option (Bool × Game) :=
  Game.can_make_any_move_go allSquaresYX g

/-- `!self.can_make_any_move() && self.in_check()` with Rust's
short-circuit `&&`: `in_check` only runs when the scan came back false. -/
def Game.is_checkmate (g : Game) : Option (Bool × Game) :=
  match g.can_make_any_move with
  | none => none
  | some (can, g1) =>
    if can then some (false, g1)
    else
      let r := g1.in_check
      some (r.1, r.2)

def Game.is_stalemate (g : Game) : Option (Bool × Game) :=
  match g.can_make_any_move with
  | none => none
  | some (can, g1) =>
    if can then some (false, g1)
    else
      let r := g1.in_check
      some (!r.1, r.2)

/-- Shared body of the two identical arms of the `match` in
`Game::try_make_move` (the Rust `White` and `Black` arms are character
for character the same code). -/
def Game.try_make_move_arm (g : Game) (from_x from_y to_x to_y : Fin 8) :
    Option (Bool × Game) :=
  match g.is_legal_move from_x from_y to_x to_y with
  | none => none
  | some (legal, g1) =>
    if legal then
      match g1.make_move from_x from_y to_x to_y with
      | none => none
      | some (_, g2) => some (true, g2.swap_turn.flip_board)
    else some (false, g1)

def Game.try_make_move (g : Game) (from_x from_y to_x to_y : Fin 8) :
    Option (Bool × Game) :=
  match g.player_to_move with
  | .White => g.try_make_move_arm from_x from_y to_x to_y
  | .Black => g.try_make_move_arm from_x from_y to_x to_y

def stdGame : Game :=
  Game.new (Board.new BOARD_DEFAULT_SETUP)

/-! ## Frame lemmas: the simulate/rollback machinery restores the state -/

theorem Game.flip_flip (g : Game) : g.flip_board.flip_board = g := by
  cases g with
  | mk b p =>
    cases b with
    | mk t =>
      unfold Game.flip_board
      simp only [Game.mk.injEq, Board.mk.injEq, and_true]
      funext y x
      rw [Fin.rev_rev]

theorem Game.in_check_snd (g : Game) : (g.in_check).2 = g :=
  Game.flip_flip g

theorem Board.setTile_restore (b : Board) (fx fy tx ty : Fin 8) (p : Piece)
    (h : b.tiles fy fx = some p) :
    (((b.setTile tx ty (some p)).setTile fx fy none).setTile tx ty
        (b.tiles ty tx)).setTile fx fy (some p) = b := by
  cases b with
  | mk t =>
    unfold Board.setTile
    simp only [Board.mk.injEq]
    funext Y X
    by_cases h1 : Y = fy ∧ X = fx
    · simp only [if_pos h1]
      rw [h1.1, h1.2]
      exact h.symm
    · by_cases h2 : Y = ty ∧ X = tx
      · simp only [if_neg h1, if_pos h2]
        rw [h2.1, h2.2]
      · simp only [if_neg h1, if_neg h2]

theorem Game.make_unmake (g : Game) (fx fy tx ty : Fin 8) (p : Piece)
    (h : g.get_piece fx fy = some p) :
    g.make_move fx fy tx ty =
      some (⟨p, g.board.tiles ty tx, fx, fy, tx, ty⟩,
        { g with board := (g.board.setTile tx ty (some p)).setTile fx fy none }) ∧
      Game.unmake_move
        { g with board := (g.board.setTile tx ty (some p)).setTile fx fy none }
        ⟨p, g.board.tiles ty tx, fx, fy, tx, ty⟩ = g := by
  have hb : g.board.tiles fy fx = some p := h
  constructor
  · unfold Game.make_move
    rw [hb]
  · unfold Game.unmake_move
    cases g with
    | mk b pl =>
      simp only [Game.mk.injEq, and_true]
      exact Board.setTile_restore b fx fy tx ty p hb

theorem Game.is_legal_move_eq (g : Game) (fx fy tx ty : Fin 8) :
    ∃ b, g.is_legal_move fx fy tx ty = some (b, g) := by
  cases hp : g.get_piece fx fy with
  | none => exact ⟨false, by simp only [Game.is_legal_move, hp]⟩
  | some piece =>
    simp only [Game.is_legal_move, hp]
    by_cases hc : piece.piece_color = g.player_to_move
    · rw [if_pos hc]
      by_cases hpl : g.is_pseudo_legal fx fy tx ty = true
      · rw [if_pos hpl]
        by_cases hdst : ((g.get_piece tx ty).isSome && !(g.can_be_here tx ty)) = true
        · rw [if_pos hdst]
          exact ⟨false, rfl⟩
        · rw [if_neg hdst]
          obtain ⟨hmk, hun⟩ := Game.make_unmake g fx fy tx ty piece hp
          rw [hmk]
          simp only [Game.in_check_snd, hun]
          cases hchk : (({ g with
              board := (g.board.setTile tx ty (some piece)).setTile fx fy
                none } : Game).in_check).1 with
          | true => exact ⟨false, by simp⟩
          | false => exact ⟨true, by simp⟩
      · rw [if_neg hpl]
        exact ⟨false, rfl⟩
    · rw [if_neg hc]
      exact ⟨false, rfl⟩

theorem Game.legal_filter_eq (x y : Fin 8) (ms : List Sq) (g : Game) :
    ∃ l, Game.legal_filter x y ms g = some (l, g) ∧
      ∀ m, m ∈ l ↔ m ∈ ms ∧ g.is_legal_move x y m.1 m.2 = some (true, g) := by
  induction ms with
  | nil => exact ⟨[], rfl, by simp [Game.legal_filter]⟩
  | cons m rest ih =>
    obtain ⟨b, hb⟩ := Game.is_legal_move_eq g x y m.1 m.2
    obtain ⟨l, hl, hmem⟩ := ih
    refine ⟨if b then m :: l else l, ?_, ?_⟩
    · simp only [Game.legal_filter, hb, hl]
    · intro m'
      cases b with
      | true =>
        simp only [if_true, List.mem_cons, hmem]
        constructor
        · rintro (rfl | ⟨hm, hleg⟩)
          · exact ⟨Or.inl rfl, hb⟩
          · exact ⟨Or.inr hm, hleg⟩
        · rintro ⟨rfl | hm, hleg⟩
          · exact Or.inl rfl
          · exact Or.inr ⟨hm, hleg⟩
      | false =>
        simp only [Bool.false_eq_true, if_false, hmem, List.mem_cons]
        constructor
        · rintro ⟨hm, hleg⟩
          exact ⟨Or.inr hm, hleg⟩
        · rintro ⟨rfl | hm, hleg⟩
          · rw [hleg] at hb
            simp at hb
          · exact ⟨hm, hleg⟩

theorem Game.get_legal_moves_eq (g : Game) (x y : Fin 8) :
    ∃ l, g.get_legal_moves x y = some (l, g) ∧
      ∀ m, m ∈ l ↔ m ∈ g.get_pseudo_moves x y ∧
        g.is_legal_move x y m.1 m.2 = some (true, g) :=
  Game.legal_filter_eq x y (g.get_pseudo_moves x y) g

theorem Game.can_make_any_move_go_eq (sqs : List Sq) (g : Game) :
    ∃ b, Game.can_make_any_move_go sqs g = some (b, g) := by
  induction sqs generalizing g with
  | nil => exact ⟨true, rfl⟩
  | cons s rest ih =>
    obtain ⟨x, y⟩ := s
    cases hp : g.get_piece x y with
    | none =>
      obtain ⟨b, hb⟩ := ih g
      exact ⟨b, by simp only [Game.can_make_any_move_go, hp, hb]⟩
    | some piece =>
      obtain ⟨l, hl, _⟩ := Game.get_legal_moves_eq g x y
      by_cases hne : (!(l.isEmpty)) = true
      · exact ⟨true, by simp only [Game.can_make_any_move_go, hp, hl, if_pos hne]⟩
      · obtain ⟨b, hb⟩ := ih g
        exact ⟨b, by simp only [Game.can_make_any_move_go, hp, hl, if_neg hne, hb]⟩

theorem Game.can_make_any_move_eq (g : Game) :
    ∃ b, g.can_make_any_move = some (b, g) :=
  Game.can_make_any_move_go_eq allSquaresYX g

theorem Game.is_checkmate_eq (g : Game) :
    ∃ b, g.is_checkmate = some (b, g) := by
  obtain ⟨can, hcan⟩ := Game.can_make_any_move_eq g
  cases can with
  | true => exact ⟨false, by simp [Game.is_checkmate, hcan]⟩
  | false =>
    refine ⟨(g.in_check).1, ?_⟩
    simp [Game.is_checkmate, hcan, Game.in_check_snd]

theorem Game.is_stalemate_eq (g : Game) :
    ∃ b, g.is_stalemate = some (b, g) := by
  obtain ⟨can, hcan⟩ := Game.can_make_any_move_eq g
  cases can with
  | true => exact ⟨false, by simp [Game.is_stalemate, hcan]⟩
  | false =>
    refine ⟨!(g.in_check).1, ?_⟩
    simp [Game.is_stalemate, hcan, Game.in_check_snd]

/-- What `is_legal_move` returning `true` guarantees about the input
state: a piece of the side to move sits on the from-square, the move is
pseudo-legal, and the destination check
`get_piece(to).is_some() && !can_be_here(to)` came out false. -/
theorem Game.is_legal_move_true_elim (g : Game) (fx fy tx ty : Fin 8) (g' : Game)
    (h : g.is_legal_move fx fy tx ty = some (true, g')) :
    ∃ piece, g.get_piece fx fy = some piece ∧
      piece.piece_color = g.player_to_move ∧
      g.is_pseudo_legal fx fy tx ty = true ∧
      ((g.get_piece tx ty).isSome && !(g.can_be_here tx ty)) = false := by
  cases hp : g.get_piece fx fy with
  | none =>
    simp only [Game.is_legal_move, hp, Option.some.injEq, Prod.mk.injEq] at h
    exact absurd h.1 (by simp)
  | some piece =>
    simp only [Game.is_legal_move, hp] at h
    by_cases hc : piece.piece_color = g.player_to_move
    · rw [if_pos hc] at h
      by_cases hpl : g.is_pseudo_legal fx fy tx ty = true
      · rw [if_pos hpl] at h
        by_cases hdst : ((g.get_piece tx ty).isSome && !(g.can_be_here tx ty)) = true
        · rw [if_pos hdst] at h
          simp at h
        · exact ⟨piece, rfl, hc, hpl, by simpa using hdst⟩
      · rw [if_neg hpl] at h
        simp at h
    · rw [if_neg hc] at h
      simp at h

theorem Game.try_make_move_arm_eq (g : Game) (fx fy tx ty : Fin 8) :
    g.try_make_move_arm fx fy tx ty = some (false, g) ∨
      ∃ g', g.try_make_move_arm fx fy tx ty = some (true, g') := by
  obtain ⟨b, hb⟩ := Game.is_legal_move_eq g fx fy tx ty
  cases b with
  | false =>
    left
    simp only [Game.try_make_move_arm, hb, Bool.false_eq_true, if_false]
  | true =>
    right
    obtain ⟨piece, hp, -, -, -⟩ := Game.is_legal_move_true_elim g fx fy tx ty g hb
    obtain ⟨hmk, -⟩ := Game.make_unmake g fx fy tx ty piece hp
    refine ⟨(({ g with
      board := (g.board.setTile tx ty (some piece)).setTile fx fy none } :
        Game).swap_turn).flip_board, ?_⟩
    simp only [Game.try_make_move_arm, hb, if_true, hmk]

/-- C4: `is_legal_move` — including its internal simulate (`make_move`),
check detection (`in_check`) and rollback (`unmake_move`) — returns the
game (board and side to move) exactly as it was, whatever the verdict;
so do `in_check`, `get_legal_moves`, `is_checkmate` and `is_stalemate`
(the `some` also records that none of them reaches the `expect` panic). -/
theorem C4_queries_preserve_state (g : Game) (fx fy tx ty x y : Fin 8) :
    (∃ b, g.is_legal_move fx fy tx ty = some (b, g)) ∧
      (g.in_check).2 = g ∧
      (∃ l, g.get_legal_moves x y = some (l, g)) ∧
      (∃ b, g.is_checkmate = some (b, g)) ∧
      (∃ b, g.is_stalemate = some (b, g)) := by
  refine ⟨Game.is_legal_move_eq g fx fy tx ty, Game.in_check_snd g, ?_,
    Game.is_checkmate_eq g, Game.is_stalemate_eq g⟩
  obtain ⟨l, hl, -⟩ := Game.get_legal_moves_eq g x y
  exact ⟨l, hl⟩

/-- C5: `try_make_move` never panics, and whenever it reports failure the
game — board and side to move — is exactly the pre-call state. -/
theorem C5_try_make_move_failure_no_change (g : Game) (fx fy tx ty : Fin 8) :
    g.try_make_move fx fy tx ty = some (false, g) ∨
      ∃ g', g.try_make_move fx fy tx ty = some (true, g') := by
  have harm := Game.try_make_move_arm_eq g fx fy tx ty
  cases hpl : g.player_to_move with
  | White => simpa only [Game.try_make_move, hpl] using harm
  | Black => simpa only [Game.try_make_move, hpl] using harm

/-- C9: `Game::new` always starts with White to move, whatever the
initial board. -/
theorem C9_new_game_white_to_move (board : Board) :
    (Game.new board).player_to_move = Color.White := rfl

/-- C10: when the board holds no king of the side to move's color,
`in_check` returns false (rather than panicking), and the game comes
back exactly as it went in (the board reoriented back). -/
theorem C10_in_check_no_king (g : Game)
    (h : ∀ x y : Fin 8, g.get_piece x y ≠ some (Piece.new .King g.player_to_move)) :
    g.in_check = (false, g) := by
  have hfk : g.flip_board.find_king = none := by
    unfold Game.find_king
    rw [List.findSome?_eq_none_iff]
    intro y hy
    rw [List.findSome?_eq_none_iff]
    intro x hx
    cases hp : g.flip_board.get_piece x y with
    | none => rfl
    | some piece =>
      simp only
      by_cases h1 : piece.piece_type = PieceType.King
      · rw [if_pos h1]
        by_cases h2 : piece.piece_color = g.flip_board.player_to_move
        · exfalso
          apply h x y.rev
          have hpiece : piece = Piece.new .King g.player_to_move := by
            cases piece with
            | mk t c =>
              simp only [Piece.new]
              simp only at h1 h2
              rw [h1, h2]
              rfl
          rw [← hpiece]
          exact hp
        · rw [if_neg h2]
      · rw [if_neg h1]
  have : g.in_check = (false, g.flip_board.flip_board) := by
    simp only [Game.in_check, hfk]
  rw [this, Game.flip_flip]

/-- C6: no square returned by `get_legal_moves` is occupied by a piece
of the side to move's color, nor by a king of either color. -/
theorem C6_legal_moves_exclude_own_and_kings (g : Game) (x y : Fin 8)
    (l : List Sq) (g' : Game) (h : g.get_legal_moves x y = some (l, g'))
    (m : Sq) (hm : m ∈ l) (p : Piece) (hp : g.get_piece m.1 m.2 = some p) :
    p.piece_type ≠ PieceType.King ∧ p.piece_color ≠ g.player_to_move := by
  obtain ⟨l2, hl2, hmem⟩ := Game.get_legal_moves_eq g x y
  rw [hl2] at h
  injection h with h2
  have hll : l2 = l := congrArg Prod.fst h2
  subst hll
  have hleg := (hmem m).1 hm
  obtain ⟨piece0, -, -, -, hdst⟩ :=
    Game.is_legal_move_true_elim g x y m.1 m.2 g hleg.2
  rw [hp] at hdst
  simp only [Option.isSome_some, Bool.true_and] at hdst
  have hcb : g.can_be_here m.1 m.2 = true := by simpa using hdst
  constructor
  · intro hk
    simp [Game.can_be_here, hp, hk] at hcb
  · intro hc
    simp [Game.can_be_here, hp, hc] at hcb

/-- A board with a lone White rook on (0,0) and a Black pawn on (0,5):
the rook can capture the pawn, giving a legal move onto an occupied
square. -/
def rookCapBoard : Board := ⟨fun y x =>
  match y.val, x.val with
  | 0, 0 => some ROOK_WHITE
  | 5, 0 => some PAWN_BLACK
  | _, _ => none⟩

def rookCapGame : Game := Game.new rookCapBoard

/-- The legal-move list of a square, `[]` on the (unreachable) panic. -/
def legal_list (g : Game) (x y : Fin 8) : List Sq :=
  match g.get_legal_moves x y with
  | some (l, _) => l
  | none => []

theorem C6_witness :
    PAWN_BLACK.piece_type ≠ PieceType.King ∧
      PAWN_BLACK.piece_color ≠ rookCapGame.player_to_move :=
  C6_legal_moves_exclude_own_and_kings rookCapGame 0 0
    (legal_list rookCapGame 0 0) rookCapGame (by decide)
    ((0 : Fin 8), (5 : Fin 8)) (by decide) PAWN_BLACK (by decide)

/-- A checkmate position (White to move): White king a1, Black queen b2
guarded by the Black king c3.  White is in check and has no legal move. -/
def mateBoard : Board := ⟨fun y x =>
  match y.val, x.val with
  | 0, 0 => some KING_WHITE
  | 1, 1 => some QUEEN_BLACK
  | 2, 2 => some KING_BLACK
  | _, _ => none⟩

def mateGame : Game := Game.new mateBoard

/-- C1: the any-legal-move scan is required to return false when no
legal move exists, making `is_checkmate` true here; but
`can_make_any_move` falls through to `return true` after exhausting all
64 squares, so on this checkmate position — side to move in check,
every square's legal-move set empty — it returns `true` and
`is_checkmate` (and `is_stalemate`) come out `false`. -/
theorem C1_can_make_any_move_fallthrough_bug :
    (mateGame.in_check).1 = true ∧
    (allSquaresYX.all fun p => (legal_list mateGame p.1 p.2).isEmpty) = true ∧
    mateGame.can_make_any_move = some (true, mateGame) ∧
    mateGame.is_checkmate = some (false, mateGame) ∧
    mateGame.is_stalemate = some (false, mateGame) := by
  refine ⟨by decide, by decide, by decide, by decide, by decide⟩

/-- C2 counterexample: from the standard start, White's pawn move
(4,1)→(4,2) succeeds, but afterwards the from-square (4,1) reports a
Black pawn (not `None`) and the to-square (4,2) reports `None` (not the
moved piece): `try_make_move` reorients the board after committing, so
the claim's unflipped coordinates read the mirrored ranks. -/
theorem C2_counterexample_board_flip :
    ((stdGame.try_make_move 4 1 4 2).map fun r =>
      (r.1, r.2.get_piece 4 1, r.2.get_piece 4 2)) =
      some (true, some PAWN_BLACK, none) := by decide

/-- C2 amended: after a successful `try_make_move`, `player_to_move`
reports the opposite side, and — in the new orientation, the board
having been reversed along the rank axis — the moved-from square read
at `(from_x, 7 - from_y)` reports no piece while `(to_x, 7 - to_y)`
reports the moved piece. -/
theorem C2_amended_success_post (g : Game) (fx fy tx ty : Fin 8) (g' : Game)
    (h : g.try_make_move fx fy tx ty = some (true, g')) :
    g'.player_to_move ≠ g.player_to_move ∧
      g'.get_piece fx fy.rev = none ∧
      ∃ p, g.get_piece fx fy = some p ∧ g'.get_piece tx ty.rev = some p := by
  have harm : g.try_make_move_arm fx fy tx ty = some (true, g') := by
    cases hpl : g.player_to_move with
    | White => simpa only [Game.try_make_move, hpl] using h
    | Black => simpa only [Game.try_make_move, hpl] using h
  obtain ⟨b, hb⟩ := Game.is_legal_move_eq g fx fy tx ty
  cases b with
  | false =>
    simp only [Game.try_make_move_arm, hb, Bool.false_eq_true, if_false] at harm
    simp at harm
  | true =>
    obtain ⟨piece, hp, hcol, hpsl, hdst⟩ :=
      Game.is_legal_move_true_elim g fx fy tx ty g hb
    obtain ⟨hmk, -⟩ := Game.make_unmake g fx fy tx ty piece hp
    simp only [Game.try_make_move_arm, hb, if_true, hmk] at harm
    have hg' : g' = (({ g with
        board := (g.board.setTile tx ty (some piece)).setTile fx fy none } :
          Game).swap_turn).flip_board := by
      injection harm with h2
      exact (congrArg Prod.snd h2).symm
    have hne : ¬(ty = fy ∧ tx = fx) := by
      rintro ⟨h1, h2⟩
      have hto : g.get_piece tx ty = some piece := by rw [h1, h2]; exact hp
      rw [hto] at hdst
      simp only [Option.isSome_some, Bool.true_and] at hdst
      have hcb : g.can_be_here tx ty = true := by simpa using hdst
      simp [Game.can_be_here, hto, hcol] at hcb
    subst hg'
    refine ⟨?_, ?_, piece, hp, ?_⟩
    · cases hpl : g.player_to_move <;>
        simp [Game.flip_board, Game.swap_turn, hpl]
    · simp [Game.get_piece, Game.flip_board, Game.swap_turn, Board.setTile,
        Fin.rev_rev]
    · simp [Game.get_piece, Game.flip_board, Game.swap_turn, Board.setTile,
        Fin.rev_rev, hne]

/-- The game after White plays (4,1)→(4,2) from the standard start. -/
def stdAfterE3 : Game :=
  match stdGame.try_make_move 4 1 4 2 with
  | some (_, g) => g
  | none => stdGame

theorem C2_amended_witness :
    stdAfterE3.player_to_move ≠ stdGame.player_to_move ∧
      stdAfterE3.get_piece 4 (Fin.rev 1) = none ∧
      ∃ p, stdGame.get_piece 4 1 = some p ∧
        stdAfterE3.get_piece 4 (Fin.rev 2) = some p :=
  C2_amended_success_post stdGame 4 1 4 2 stdAfterE3 (by decide)

/-- C8: from the standard starting position the union of
`get_legal_moves` over all 64 squares, counted as (from, to) pairs, has
exactly 20 elements: each of the 8 pawns has exactly the single and
double advance, each knight exactly its two developing moves, and every
other square — Black's pieces included — contributes no move. -/
theorem C8_twenty_opening_moves :
    ((allSquaresYX.map fun p => (legal_list stdGame p.1 p.2).length).sum = 20) ∧
    ((List.finRange 8).all fun x =>
        ((legal_list stdGame x 1).length == 2) &&
        ((legal_list stdGame x 1).contains (x, 2)) &&
        ((legal_list stdGame x 1).contains (x, 3))) = true ∧
    ((legal_list stdGame 1 0).length = 2 ∧
      (((legal_list stdGame 1 0).contains (0, 2)) &&
        ((legal_list stdGame 1 0).contains (2, 2))) = true) ∧
    ((legal_list stdGame 6 0).length = 2 ∧
      (((legal_list stdGame 6 0).contains (5, 2)) &&
        ((legal_list stdGame 6 0).contains (7, 2))) = true) ∧
    (allSquaresYX.all fun p =>
        decide (p.2 = 1) || decide (p = ((1 : Fin 8), (0 : Fin 8))) ||
          decide (p = ((6 : Fin 8), (0 : Fin 8))) ||
          (legal_list stdGame p.1 p.2).isEmpty) = true := by
  refine ⟨by decide, by decide, ⟨by decide, by decide⟩, ⟨by decide, by decide⟩,
    by decide⟩

def emptyGame : Game := Game.new ⟨fun _ _ => none⟩

theorem C10_in_check_no_king_witness : emptyGame.in_check = (false, emptyGame) :=
  C10_in_check_no_king emptyGame
    (fun x y h => by simp [emptyGame, Game.new, Game.get_piece, Board.new] at h)

/-! ## Membership in the pseudo-capture sets -/

theorem mem_hsInsert (s : List Sq) (p m : Sq) :
    m ∈ hsInsert s p ↔ m = p ∨ m ∈ s := by
  unfold hsInsert
  split
  · rename_i h
    constructor
    · exact fun hm => Or.inr hm
    · rintro (rfl | hm)
      · exact h
      · exact hm
  · exact List.mem_cons

theorem mem_insHit (s : List Sq) (r : RaycastInfo) (m : Sq) :
    m ∈ insHit s r ↔ m ∈ s ∨ (r.is_hit = true ∧ r.point = some m) := by
  unfold insHit
  split
  · rename_i hh
    cases hpt : r.point with
    | none => simp [hpt]
    | some p =>
      simp only [mem_hsInsert, hpt, hh, Option.some.injEq, true_and]
      constructor
      · rintro (rfl | hm)
        · exact Or.inr rfl
        · exact Or.inl hm
      · rintro (hm | rfl)
        · exact Or.inr hm
        · exact Or.inl rfl
  · rename_i hh
    simp only [Bool.not_eq_true] at hh
    simp [hh]

theorem mem_foldl_insHit (g : Game) (x y : Fin 8) (st : Int × Int → Option Nat)
    (dirs : List (Int × Int)) (s : List Sq) (m : Sq) :
    m ∈ dirs.foldl (fun acc d => insHit acc (g.cast_ray x y d.1 d.2 (st d))) s ↔
      m ∈ s ∨ ∃ d ∈ dirs, (g.cast_ray x y d.1 d.2 (st d)).is_hit = true ∧
        (g.cast_ray x y d.1 d.2 (st d)).point = some m := by
  induction dirs generalizing s with
  | nil => simp
  | cons d rest ih =>
    simp only [List.foldl_cons, ih, mem_insHit, List.mem_cons]
    constructor
    · rintro ((hm | hd) | ⟨d', hd', hh, hp⟩)
      · exact Or.inl hm
      · exact Or.inr ⟨d, Or.inl rfl, hd⟩
      · exact Or.inr ⟨d', Or.inr hd', hh, hp⟩
    · rintro (hm | ⟨d', (rfl | hd'), hh, hp⟩)
      · exact Or.inl (Or.inl hm)
      · exact Or.inl (Or.inr ⟨hh, hp⟩)
      · exact Or.inr ⟨d', hd', hh, hp⟩

theorem castRayFinish_is_hit (pos : Sq) (i : Nat) (path : List Sq) :
    (castRayFinish pos i path).is_hit = false := by
  unfold castRayFinish
  split <;> rfl

/-- Any hit point of the ray loop lies `k ≥ 1` steps along the
direction from the loop's entry position. -/
theorem castRayLoop_hit_point (g : Game) (dx dy : Int) (steps : Option Nat) :
    ∀ (fuel : Nat) (pos : Sq) (i : Nat) (path : List Sq) (q : Sq),
      (castRayLoop g dx dy steps fuel pos i path).is_hit = true →
      (castRayLoop g dx dy steps fuel pos i path).point = some q →
      ∃ k : Nat, 1 ≤ k ∧ (q.1 : Int) = (pos.1 : Int) + (k : Int) * dx ∧
        (q.2 : Int) = (pos.2 : Int) + (k : Int) * dy := by
  intro fuel
  induction fuel with
  | zero =>
    intro pos i path q hhit _
    rw [castRayLoop, castRayFinish_is_hit] at hhit
    exact absurd hhit (by simp)
  | succ n ih =>
    intro pos i path q hhit hpt
    rw [castRayLoop] at hhit hpt
    by_cases hsd : stepsDone steps i = true
    · rw [if_pos hsd, castRayFinish_is_hit] at hhit
      exact absurd hhit (by simp)
    · rw [if_neg hsd] at hhit hpt
      by_cases hb : is_bounded ((pos.1 : Int) + dx) ((pos.2 : Int) + dy)
      · rw [dif_pos hb] at hhit hpt
        have hq1 : (((boundedSq _ _ hb).1 : Fin 8) : Int) = (pos.1 : Int) + dx :=
          Int.toNat_of_nonneg hb.1
        have hq2 : (((boundedSq _ _ hb).2 : Fin 8) : Int) = (pos.2 : Int) + dy :=
          Int.toNat_of_nonneg hb.2.2.1
        by_cases he : g.is_empty (boundedSq _ _ hb).1 (boundedSq _ _ hb).2 = true
        · rw [if_pos he] at hhit hpt
          obtain ⟨k, hk, hkx, hky⟩ := ih _ _ _ q hhit hpt
          refine ⟨k + 1, by omega, ?_, ?_⟩
          · rw [hkx, hq1]
            push_cast
            ring
          · rw [hky, hq2]
            push_cast
            ring
        · rw [if_neg he] at hpt
          simp only [Option.some.injEq] at hpt
          refine ⟨1, le_refl 1, ?_, ?_⟩
          · rw [← hpt, hq1]
            push_cast
            ring
          · rw [← hpt, hq2]
            push_cast
            ring
      · rw [dif_neg hb, castRayFinish_is_hit] at hhit
        exact absurd hhit (by simp)

/-- A ray in a nonzero direction never reports a hit on its own origin. -/
theorem cast_ray_hit_ne_origin (g : Game) (x y : Fin 8) (dx dy : Int)
    (steps : Option Nat) (q : Sq) (hd : ¬(dx = 0 ∧ dy = 0))
    (hh : (g.cast_ray x y dx dy steps).is_hit = true)
    (hp : (g.cast_ray x y dx dy steps).point = some q) :
    q ≠ (x, y) := by
  obtain ⟨k, hk, hkx, hky⟩ :=
    castRayLoop_hit_point g dx dy steps (rayFuel steps) (x, y) 0 [] q hh hp
  intro he
  rw [he] at hkx hky
  simp only at hkx hky
  rcases not_and_or.mp hd with h0 | h0
  · have : (k : Int) * dx = 0 := by omega
    rcases mul_eq_zero.mp this with hk0 | hdx0
    · have : k = 0 := by exact_mod_cast hk0
      omega
    · exact h0 hdx0
  · have : (k : Int) * dy = 0 := by omega
    rcases mul_eq_zero.mp this with hk0 | hdy0
    · have : k = 0 := by exact_mod_cast hk0
      omega
    · exact h0 hdy0

theorem not_mem_captures_pawn (g : Game) (x y : Fin 8) :
    (x, y) ∉ g.get_pseudo_captures_pawn x y [] := by
  unfold Game.get_pseudo_captures_pawn
  intro hm
  rw [mem_insHit, mem_insHit] at hm
  rcases hm with ((h0 | ⟨hh, hp⟩) | ⟨hh, hp⟩)
  · simp at h0
  · exact cast_ray_hit_ne_origin g x y 1 1 (some 1) _ (by decide) hh hp rfl
  · exact cast_ray_hit_ne_origin g x y (-1) 1 (some 1) _ (by decide) hh hp rfl

theorem not_mem_captures_fold (g : Game) (x y : Fin 8)
    (st : Int × Int → Option Nat) (dirs : List (Int × Int))
    (hd : ∀ d ∈ dirs, ¬(d.1 = 0 ∧ d.2 = 0)) (s : List Sq) (hs : (x, y) ∉ s) :
    (x, y) ∉ dirs.foldl (fun acc d => insHit acc (g.cast_ray x y d.1 d.2 (st d))) s := by
  rw [mem_foldl_insHit]
  rintro (hm | ⟨d, hdm, hh, hp⟩)
  · exact hs hm
  · exact cast_ray_hit_ne_origin g x y d.1 d.2 (st d) _ (hd d hdm) hh hp rfl

/-- A 1-step ray in the degenerate zero direction from an occupied
square immediately hits that square itself. -/
theorem ray_zero_hits_origin (g : Game) (x y : Fin 8)
    (hp : (g.get_piece x y).isSome = true) :
    (g.cast_ray x y 0 0 (some 1)).is_hit = true ∧
      (g.cast_ray x y 0 0 (some 1)).point = some (x, y) := by
  have hx := x.isLt
  have hy := y.isLt
  have hb : is_bounded ((x : Int) + 0) ((y : Int) + 0) := by
    refine ⟨?_, ?_, ?_, ?_⟩ <;> omega
  have h1 : ((x : Int) + 0).toNat = x.val := by omega
  have h2 : ((y : Int) + 0).toNat = y.val := by omega
  have hsq : boundedSq ((x : Int) + 0) ((y : Int) + 0) hb = (x, y) := by
    simp [boundedSq, Prod.ext_iff, Fin.ext_iff, h1, h2]
  have hne : ¬(g.is_empty (boundedSq ((x : Int) + 0) ((y : Int) + 0) hb).1
      (boundedSq ((x : Int) + 0) ((y : Int) + 0) hb).2 = true) := by
    rw [hsq]
    cases hgp : g.get_piece x y with
    | none => rw [hgp] at hp; simp at hp
    | some piece => simp [Game.is_empty, hgp]
  unfold Game.cast_ray rayFuel
  rw [castRayLoop]
  rw [if_neg (show ¬(stepsDone (some 1) 0 = true) by decide)]
  rw [dif_pos hb, if_neg hne, hsq]
  exact ⟨rfl, rfl⟩

/-- C3 counterexample: the White king on (0,0) of `mateGame` has its own
square in its pseudo-capture set — the capture enumeration iterates over
all nine direction pairs including (0,0), whose 1-step ray hits the king
itself. -/
theorem C3_counterexample_king_own_square :
    ((0, 0) : Sq) ∈ mateGame.get_pseudo_captures 0 0 := by decide

/-- C3 amended: the pseudo-capture set of an occupied square contains
the piece's own square exactly when the piece is a king: the king's
enumeration includes the degenerate zero direction, whose 1-step ray
hits the king itself; every other piece kind's capture rays use nonzero
directions and so never land on the origin. -/
theorem C3_amended_own_square_iff_king (g : Game) (x y : Fin 8) (p : Piece)
    (hp : g.get_piece x y = some p) :
    ((x, y) ∈ g.get_pseudo_captures x y ↔ p.piece_type = PieceType.King) := by
  constructor
  · intro hm
    by_contra hk
    simp only [Game.get_pseudo_captures, hp] at hm
    cases ht : p.piece_type with
    | Pawn =>
      simp only [ht] at hm
      exact not_mem_captures_pawn g x y hm
    | Bishop =>
      simp only [ht] at hm
      exact not_mem_captures_fold g x y (fun _ => none) bishopDirs (by decide) []
        (by simp) hm
    | Knight =>
      simp only [ht] at hm
      exact not_mem_captures_fold g x y (fun _ => some 1) knightDirs (by decide) []
        (by simp) hm
    | Rook =>
      simp only [ht] at hm
      exact not_mem_captures_fold g x y (fun _ => none) rookDirs (by decide) []
        (by simp) hm
    | Queen =>
      simp only [ht] at hm
      exact not_mem_captures_fold g x y (fun _ => none) rookDirs (by decide) _
        (not_mem_captures_fold g x y (fun _ => none) bishopDirs (by decide) []
          (by simp)) hm
    | King => exact hk ht
  · intro hk
    simp only [Game.get_pseudo_captures, hp, hk]
    have hz := ray_zero_hits_origin g x y (by rw [hp]; rfl)
    exact (mem_foldl_insHit g x y (fun _ => some 1) kingDirs [] (x, y)).mpr
      (Or.inr ⟨(0, 0), by decide, hz.1, hz.2⟩)

theorem C3_amended_witness :
    (((0, 0) : Sq) ∈ mateGame.get_pseudo_captures 0 0 ↔
      KING_WHITE.piece_type = PieceType.King) :=
  C3_amended_own_square_iff_king mateGame 0 0 KING_WHITE (by decide)

/-! ## The raycast contract (spec section 4.1) -/

/-- The file coordinate after `k` steps of the direction. -/
def rayX (x : Fin 8) (dx : Int) (k : Nat) : Int := (x : Int) + (k : Int) * dx

/-- The rank coordinate after `k` steps of the direction. -/
def rayY (y : Fin 8) (dy : Int) (k : Nat) : Int := (y : Int) + (k : Int) * dy

/-- The raycast contract of spec section 4.1, transcribed: there is a
number `n` of consumed steps, within the step limit; the reported path
is exactly the squares 1..n along the direction, all empty; and either
(hit) an occupied square one further step along is reported as the
landing point, itself excluded from the path, or (no steps taken) no
landing point and an empty path, with the first step already out of
bounds or a zero step limit, or (exhaustion) the last square reached is
the landing point, because the step limit was reached or the next square
would fall outside the board.  Stated relative to a start count `i` so
it can serve as the loop postcondition (`i = 0` for `cast_ray` itself). -/
def castRayPost (g : Game) (x y : Fin 8) (dx dy : Int) (steps : Option Nat)
    (i : Nat) (info : RaycastInfo) : Prop :=
  ∃ n : Nat, i ≤ n ∧
    (∀ s, steps = some s → n ≤ s) ∧
    (∀ k, 1 ≤ k → k ≤ n → ∃ q : Sq, (q.1 : Int) = rayX x dx k ∧
      (q.2 : Int) = rayY y dy k ∧ g.get_piece q.1 q.2 = none ∧ q ∈ info.path) ∧
    (∀ q ∈ info.path, ∃ k, 1 ≤ k ∧ k ≤ n ∧ (q.1 : Int) = rayX x dx k ∧
      (q.2 : Int) = rayY y dy k ∧ g.get_piece q.1 q.2 = none) ∧
    ((info.is_hit = true ∧
        (∃ q : Sq, info.point = some q ∧ (q.1 : Int) = rayX x dx (n + 1) ∧
          (q.2 : Int) = rayY y dy (n + 1) ∧ (g.get_piece q.1 q.2).isSome = true ∧
          q ∉ info.path) ∧
        (∀ s, steps = some s → n < s)) ∨
      (info.is_hit = false ∧ n = 0 ∧ info.point = none ∧ info.path = [] ∧
        (steps = some 0 ∨ ¬ is_bounded (rayX x dx 1) (rayY y dy 1))) ∨
      (info.is_hit = false ∧ 1 ≤ n ∧
        (∃ q : Sq, info.point = some q ∧ (q.1 : Int) = rayX x dx n ∧
          (q.2 : Int) = rayY y dy n) ∧
        (steps = some n ∨ ¬ is_bounded (rayX x dx (n + 1)) (rayY y dy (n + 1)))))

/-- `cast_ray` meets the contract of spec section 4.1. -/
def RayContract (g : Game) (x y : Fin 8) (dx dy : Int) (steps : Option Nat) : Prop :=
  castRayPost g x y dx dy steps 0 (g.cast_ray x y dx dy steps)

/-- A square of the board lies at most 7 steps along a direction with a
nonzero component. -/
theorem ray_coord_le_seven (a : Fin 8) (d : Int) (hd : d ≠ 0) (i : Nat) (c : Fin 8)
    (hc : (c : Int) = (a : Int) + (i : Int) * d) : i ≤ 7 := by
  have ha8 : (a : Int) < 8 := by exact_mod_cast a.isLt
  have ha0 : (0 : Int) ≤ (a : Int) := by positivity
  have hc8 : (c : Int) < 8 := by exact_mod_cast c.isLt
  have hc0 : (0 : Int) ≤ (c : Int) := by positivity
  have hi0 : (0 : Int) ≤ (i : Int) := by positivity
  rcases hd.lt_or_lt with hneg | hpos
  · have hle : (i : Int) * d ≤ (i : Int) * (-1) := by
      apply mul_le_mul_of_nonneg_left (by omega) hi0
    have : (i : Int) ≤ 7 := by
      have h1 := hc0
      rw [hc] at h1
      nlinarith
    exact_mod_cast this
  · have hle : (i : Int) * 1 ≤ (i : Int) * d := by
      apply mul_le_mul_of_nonneg_left (by omega) hi0
    have : (i : Int) ≤ 7 := by
      have h1 := hc8
      rw [hc] at h1
      nlinarith
    exact_mod_cast this

theorem ray_index_le_seven (x y : Fin 8) (dx dy : Int) (hd : ¬(dx = 0 ∧ dy = 0))
    (i : Nat) (q : Sq) (hq1 : (q.1 : Int) = rayX x dx i)
    (hq2 : (q.2 : Int) = rayY y dy i) : i ≤ 7 := by
  rcases not_and_or.mp hd with h0 | h0
  · exact ray_coord_le_seven x dx h0 i q.1 hq1
  · exact ray_coord_le_seven y dy h0 i q.2 hq2

theorem castRayFinish_post (g : Game) (x y : Fin 8) (dx dy : Int)
    (steps : Option Nat) (i : Nat) (pos : Sq) (path : List Sq)
    (hpos1 : (pos.1 : Int) = rayX x dx i) (hpos2 : (pos.2 : Int) = rayY y dy i)
    (inv2 : ∀ s, steps = some s → i ≤ s)
    (inv3 : ∀ k, 1 ≤ k → k ≤ i → ∃ q : Sq, (q.1 : Int) = rayX x dx k ∧
      (q.2 : Int) = rayY y dy k ∧ g.get_piece q.1 q.2 = none ∧ q ∈ path)
    (inv4 : ∀ q ∈ path, ∃ k, 1 ≤ k ∧ k ≤ i ∧ (q.1 : Int) = rayX x dx k ∧
      (q.2 : Int) = rayY y dy k ∧ g.get_piece q.1 q.2 = none)
    (hreason : steps = some i ∨ ¬ is_bounded (rayX x dx (i + 1)) (rayY y dy (i + 1))) :
    castRayPost g x y dx dy steps i (castRayFinish pos i path) := by
  unfold castRayFinish
  by_cases hi : i = 0
  · subst hi
    have hpe : path = [] := by
      rw [List.eq_nil_iff_forall_not_mem]
      intro q hq
      obtain ⟨k, hk1, hk0, -⟩ := inv4 q hq
      omega
    rw [if_pos rfl]
    subst hpe
    exact ⟨0, le_refl 0, inv2, fun k hk1 hk0 => absurd (hk1.trans hk0) (by omega),
      fun q hq => absurd hq (List.not_mem_nil q),
      Or.inr (Or.inl ⟨rfl, rfl, rfl, rfl, hreason⟩)⟩
  · rw [if_neg hi]
    exact ⟨i, le_refl i, inv2, inv3, inv4,
      Or.inr (Or.inr ⟨rfl, by omega, ⟨pos, rfl, hpos1, hpos2⟩, hreason⟩)⟩

theorem castRayLoop_post (g : Game) (x y : Fin 8) (dx dy : Int)
    (steps : Option Nat) (hnd : ¬(dx = 0 ∧ dy = 0) ∨ steps ≠ none) :
    ∀ (fuel i : Nat) (pos : Sq) (path : List Sq),
      (pos.1 : Int) = rayX x dx i → (pos.2 : Int) = rayY y dy i →
      (∀ s, steps = some s → i ≤ s) →
      (∀ k, 1 ≤ k → k ≤ i → ∃ q : Sq, (q.1 : Int) = rayX x dx k ∧
        (q.2 : Int) = rayY y dy k ∧ g.get_piece q.1 q.2 = none ∧ q ∈ path) →
      (∀ q ∈ path, ∃ k, 1 ≤ k ∧ k ≤ i ∧ (q.1 : Int) = rayX x dx k ∧
        (q.2 : Int) = rayY y dy k ∧ g.get_piece q.1 q.2 = none) →
      (∀ s, steps = some s → s + 1 - i ≤ fuel) →
      (steps = none → 8 - i ≤ fuel) →
      castRayPost g x y dx dy steps i (castRayLoop g dx dy steps fuel pos i path) := by
  intro fuel
  induction fuel with
  | zero =>
    intro i pos path hpos1 hpos2 inv2 inv3 inv4 hfuelS hfuelN
    exfalso
    cases hst : steps with
    | some s =>
      have h1 := hfuelS s hst
      have := inv2 s hst
      omega
    | none =>
      have h1 := hfuelN hst
      rcases hnd with h0 | h0
      · have := ray_index_le_seven x y dx dy h0 i pos hpos1 hpos2
        omega
      · exact h0 hst
  | succ f ih =>
    intro i pos path hpos1 hpos2 inv2 inv3 inv4 hfuelS hfuelN
    rw [castRayLoop]
    by_cases hsd : stepsDone steps i = true
    · rw [if_pos hsd]
      refine castRayFinish_post g x y dx dy steps i pos path hpos1 hpos2 inv2 inv3
        inv4 (Or.inl ?_)
      cases hst : steps with
      | some s =>
        rw [hst] at hsd
        simp only [stepsDone, ge_iff_le, decide_eq_true_eq] at hsd
        have := inv2 s hst
        have hse : s = i := by omega
        rw [hse]
      | none =>
        rw [hst] at hsd
        simp [stepsDone] at hsd
    · rw [if_neg hsd]
      have hstep : ∀ s, steps = some s → i + 1 ≤ s := by
        intro s hst
        rw [hst] at hsd
        simp only [stepsDone, ge_iff_le, decide_eq_true_eq] at hsd
        omega
      by_cases hb : is_bounded ((pos.1 : Int) + dx) ((pos.2 : Int) + dy)
      · rw [dif_pos hb]
        have hq1 : (((boundedSq _ _ hb).1 : Fin 8) : Int) = rayX x dx (i + 1) := by
          show ((((pos.1 : Int) + dx).toNat : Nat) : Int) = _
          rw [Int.toNat_of_nonneg hb.1, hpos1]
          unfold rayX
          push_cast
          ring
        have hq2 : (((boundedSq _ _ hb).2 : Fin 8) : Int) = rayY y dy (i + 1) := by
          show ((((pos.2 : Int) + dy).toNat : Nat) : Int) = _
          rw [Int.toNat_of_nonneg hb.2.2.1, hpos2]
          unfold rayY
          push_cast
          ring
        by_cases he : g.is_empty (boundedSq _ _ hb).1 (boundedSq _ _ hb).2 = true
        · rw [if_pos he]
          have hempty : g.get_piece (boundedSq _ _ hb).1 (boundedSq _ _ hb).2 = none := by
            unfold Game.is_empty at he
            exact Option.isNone_iff_eq_none.mp he
          have hpost := ih (i + 1) (boundedSq _ _ hb) (hsInsert path (boundedSq _ _ hb))
            hq1 hq2 hstep
            (by
              intro k hk1 hki
              by_cases hke : k = i + 1
              · subst hke
                exact ⟨boundedSq _ _ hb, hq1, hq2, hempty,
                  (mem_hsInsert _ _ _).mpr (Or.inl rfl)⟩
              · obtain ⟨q, e1, e2, e3, e4⟩ := inv3 k hk1 (by omega)
                exact ⟨q, e1, e2, e3, (mem_hsInsert _ _ _).mpr (Or.inr e4)⟩)
            (by
              intro q hq
              rcases (mem_hsInsert _ _ _).mp hq with rfl | hq2m
              · exact ⟨i + 1, by omega, le_refl _, hq1, hq2, hempty⟩
              · obtain ⟨k, e1, e2, e3, e4, e5⟩ := inv4 q hq2m
                exact ⟨k, e1, by omega, e3, e4, e5⟩)
            (fun s hst => by have := hfuelS s hst; omega)
            (fun hst => by have := hfuelN hst; omega)
          obtain ⟨n, hn, rest⟩ := hpost
          exact ⟨n, by omega, rest⟩
        · rw [if_neg he]
          have hocc : (g.get_piece (boundedSq _ _ hb).1 (boundedSq _ _ hb).2).isSome = true := by
            unfold Game.is_empty at he
            cases hgp : g.get_piece (boundedSq _ _ hb).1 (boundedSq _ _ hb).2 with
            | none => rw [hgp] at he; simp at he
            | some piece => rfl
          refine ⟨i, le_refl i, inv2, inv3, inv4, Or.inl ⟨rfl,
            ⟨boundedSq _ _ hb, rfl, hq1, hq2, hocc, ?_⟩, ?_⟩⟩
          · intro hmem
            obtain ⟨k, -, -, -, -, hqe⟩ := inv4 _ hmem
            rw [hqe] at hocc
            simp at hocc
          · intro s hst
            have := hstep s hst
            omega
      · rw [dif_neg hb]
        refine castRayFinish_post g x y dx dy steps i pos path hpos1 hpos2 inv2 inv3
          inv4 (Or.inr ?_)
        intro hcontra
        apply hb
        have e1 : rayX x dx (i + 1) = (pos.1 : Int) + dx := by
          rw [hpos1]
          unfold rayX
          push_cast
          ring
        have e2 : rayY y dy (i + 1) = (pos.2 : Int) + dy := by
          rw [hpos2]
          unfold rayY
          push_cast
          ring
        rw [e1, e2] at hcontra
        exact hcontra

/-- C7: `cast_ray` satisfies the contract of spec section 4.1 for every
origin, direction and optional step limit on which the Rust loop
terminates (everything except an unlimited ray in the degenerate zero
direction, which no call site uses and on which the loop would spin
forever): a hit reports the occupied landing square with the crossed
empty squares as path, excluding the hit square; a boundary or
step-limit stop reports no-hit with the last square reached, or no
landing square and an empty path when no step was taken. -/
theorem C7_cast_ray_contract (g : Game) (x y : Fin 8) (dx dy : Int)
    (steps : Option Nat) (hnd : ¬(dx = 0 ∧ dy = 0) ∨ steps ≠ none) :
    RayContract g x y dx dy steps :=
  castRayLoop_post g x y dx dy steps hnd (rayFuel steps) 0 (x, y) []
    (by simp [rayX]) (by simp [rayY]) (fun s _ => Nat.zero_le s)
    (fun k hk1 hk0 => absurd (hk1.trans hk0) (by omega))
    (fun q hq => absurd hq (List.not_mem_nil q))
    (fun s hst => by rw [hst]; simp [rayFuel])
    (fun hst => by rw [hst]; simp [rayFuel])

theorem C7_witness : RayContract stdGame 0 2 0 1 none :=
  C7_cast_ray_contract stdGame 0 2 0 1 none (Or.inl (by decide))
